import Mathlib

/-!
Verification of the iBackupper specification against the repository.

The repository ships the Svelte/TypeScript frontend in full; the Python
backend (Task Manager, Backup Store, Schedule Evaluator, Device Registry)
is not part of the source tree, only its README and run scripts are.
Frontend functions are embedded directly from the TypeScript source;
backend operations are modelled from the specification text, as marked in
each doc comment.
-/

namespace Frontend

/-- Status of a backup, from the union type in
`frontend/src/lib/types/Backup.ts`: `'success' | 'failed' | 'in_progress'`. -/
inductive BackupStatus
  | success
  | failed
  | in_progress
deriving DecidableEq, Repr

/-- The `Backup` interface from `frontend/src/lib/types/Backup.ts`
(optional metadata fields `uuid`, `version`, `backup_state` omitted as they
play no role in any claim). -/
structure Backup where
  id : String
  timestamp : String
  full : Bool
  status : BackupStatus
deriving DecidableEq, Repr

/-- Status of a task, from the union type in `frontend/src/lib/types/Task.ts`:
`'pending' | 'in_progress' | 'completed' | 'failed'`. -/
inductive TaskStatus
  | pending
  | in_progress
  | completed
  | failed
deriving DecidableEq, Repr

/-- The `Task` interface from `frontend/src/lib/types/Task.ts`.  `serial` is
an optional field there, hence `Option String` here; `none` models an absent
field and `some ""` models an explicitly empty string (both are falsy in
JavaScript).  Fields irrelevant to the claims are omitted. -/
structure Task where
  id : String
  progress : Nat
  status : TaskStatus
  serial : Option String
  full : Bool
deriving DecidableEq, Repr

/-- JavaScript truthiness of `task.serial` as used in the guard
`if (task.serial)` in `stores/tasks.ts`: an absent field and the empty
string are both falsy. -/
def serialTruthy : Option String → Bool
  | none => false
  | some s => !(s == "")

/-- The body of `hasFullBackup` in `frontend/src/lib/api.ts`:
`data.backups.some((backup: Backup) => backup.full && backup.status === 'success')`.
The surrounding HTTP fetch is I/O and is not part of the predicate. -/
def hasFullBackup (backups : List Backup) : Bool :=
  backups.any fun backup => backup.full && backup.status == .success

/-- One `Map.set` call of a JavaScript `Map<string, Task>`: overwrites the
value at an existing key in place, otherwise appends the new binding
(JavaScript `Map` preserves insertion order). -/
def mapSet (m : List (String × Task)) (k : String) (v : Task) :
    List (String × Task) :=
  if m.any (fun p => p.1 == k) then
    m.map (fun p => if p.1 == k then (k, v) else p)
  else
    m ++ [(k, v)]

/-- JavaScript `Map.get`, as an `Option`: the value of the first binding
with the given key (`mapSet` keeps keys unique, so the choice of the first
binding is immaterial). -/
def mapGet : List (String × Task) → String → Option Task
  | [], _ => none
  | p :: m, k => if p.1 == k then some p.2 else mapGet m k

/-- JavaScript `Map.has`. -/
def mapHas (m : List (String × Task)) (k : String) : Bool :=
  (mapGet m k).isSome

/-- The loop body of the derived store `activeTasksByDevice` in
`frontend/src/lib/stores/tasks.ts`: for each task, if its status is
`'pending'` or `'in_progress'` and `task.serial` is truthy, set
`activeMap[task.serial] := task`. -/
def activeStep (m : List (String × Task)) (task : Task) :
    List (String × Task) :=
  if (task.status == .pending || task.status == .in_progress)
      && serialTruthy task.serial then
    mapSet m (task.serial.getD "") task
  else m

/-- The derived store `activeTasksByDevice` in
`frontend/src/lib/stores/tasks.ts`: fold the `forEach` loop over the task
list starting from an empty `Map`. -/
def activeTasksByDevice (tasks : List Task) : List (String × Task) :=
  tasks.foldl activeStep []

/-- A task counts as active in `activeTasksByDevice` when its status is
`'pending'` or `'in_progress'`. -/
def isActiveTask (t : Task) : Bool :=
  t.status == .pending || t.status == .in_progress

end Frontend

namespace Frontend

/-- The last task in list order whose serial is `some s` and whose status is
active; this is what repeated `Map.set` calls leave at key `s`. -/
def lastActive (s : String) : List Task → Option Task
  | [] => none
  | t :: ts =>
    match lastActive s ts with
    | some u => some u
    | none => if t.serial == some s && isActiveTask t then some t else none

theorem mapGet_mapSet_self (m : List (String × Task)) (k : String) (v : Task) :
    mapGet (mapSet m k v) k = some v := by
  unfold mapSet
  split
  case isTrue h =>
    induction m with
    | nil => cases h
    | cons q m ih =>
      by_cases hq : (q.1 == k) = true
      · simp [mapGet, hq]
      · simp only [List.any_cons, hq, Bool.false_or] at h
        simp only [List.map_cons, if_neg hq, mapGet]
        exact ih h
  case isFalse h =>
    induction m with
    | nil => simp [mapGet]
    | cons q m ih =>
      simp only [List.any_cons, Bool.or_eq_true] at h
      push_neg at h
      simp only [List.cons_append, mapGet]
      rw [if_neg h.1]
      exact ih h.2

theorem mapGet_replaceKey (k k' : String) (v : Task) (m : List (String × Task))
    (h : k ≠ k') :
    mapGet (m.map (fun p => if (p.1 == k) = true then (k, v) else p)) k' = mapGet m k' := by
  induction m with
  | nil => rfl
  | cons q m ih =>
    by_cases hq : (q.1 == k) = true
    · have hqk : q.1 = k := by simpa using hq
      have hq' : ¬(q.1 == k') = true := by simp [hqk, h]
      simp only [List.map_cons, if_pos hq, mapGet]
      rw [if_neg (by simpa using h), if_neg hq']
      exact ih
    · simp only [List.map_cons, if_neg hq, mapGet]
      by_cases hq' : (q.1 == k') = true
      · rw [if_pos hq', if_pos hq']
      · rw [if_neg hq', if_neg hq']
        exact ih

theorem mapGet_append_ne (k k' : String) (v : Task) (m : List (String × Task))
    (h : k ≠ k') : mapGet (m ++ [(k, v)]) k' = mapGet m k' := by
  induction m with
  | nil => simp [mapGet, h]
  | cons q m ih =>
    simp only [List.cons_append, mapGet]
    by_cases hq' : (q.1 == k') = true
    · rw [if_pos hq', if_pos hq']
    · rw [if_neg hq', if_neg hq']
      exact ih

theorem mapGet_mapSet_ne (m : List (String × Task)) (k k' : String) (v : Task)
    (h : k ≠ k') : mapGet (mapSet m k v) k' = mapGet m k' := by
  unfold mapSet
  split
  · exact mapGet_replaceKey k k' v m h
  · exact mapGet_append_ne k k' v m h

theorem lastActive_isSome_iff (s : String) (ts : List Task) :
    (lastActive s ts).isSome = true ↔
      ∃ t ∈ ts, t.serial = some s ∧ isActiveTask t = true := by
  induction ts with
  | nil => simp [lastActive]
  | cons t ts ih =>
    simp only [lastActive]
    cases hl : lastActive s ts with
    | some u =>
      simp only [Option.isSome_some, true_iff]
      rcases ih.mp (by rw [hl]; rfl) with ⟨w, hw, hws, hwa⟩
      exact ⟨w, List.mem_cons_of_mem _ hw, hws, hwa⟩
    | none =>
      by_cases hrel : (t.serial == some s && isActiveTask t) = true
      · simp only [if_pos hrel, Option.isSome_some, true_iff]
        have h12 : t.serial = some s ∧ isActiveTask t = true := by
          simpa using hrel
        exact ⟨t, List.mem_cons_self t ts, h12.1, h12.2⟩
      · simp only [if_neg hrel, Option.isSome_none, Bool.false_eq_true,
          false_iff, not_exists]
        rintro w ⟨hw, hws, hwa⟩
        rcases List.mem_cons.mp hw with rfl | hw
        · exact hrel (by simp [hws, hwa])
        · have hsome := ih.mpr ⟨w, hw, hws, hwa⟩
          rw [hl] at hsome
          simp at hsome

theorem mapGet_activeStep (m : List (String × Task)) (t : Task) (s : String)
    (hs : s ≠ "") :
    mapGet (activeStep m t) s =
      if (t.serial == some s && isActiveTask t) = true then some t
      else mapGet m s := by
  unfold activeStep
  by_cases hc : ((t.status == TaskStatus.pending ||
      t.status == TaskStatus.in_progress) && serialTruthy t.serial) = true
  · rw [if_pos hc]
    rcases Bool.and_eq_true_iff.mp hc with ⟨hact, htru⟩
    cases hser : t.serial with
    | none => rw [hser] at htru; cases htru
    | some s' =>
      rw [hser] at htru
      have hs' : s' ≠ "" := by simpa [serialTruthy] using htru
      by_cases hss : s' = s
      · subst hss
        have hcond : (some s' == some s' && isActiveTask t) = true := by
          simpa [isActiveTask] using hact
        rw [if_pos hcond]
        simp only [Option.getD_some]
        exact mapGet_mapSet_self m s' t
      · have hcond : (some s' == some s && isActiveTask t) = false := by
          simp [hss]
        rw [hcond]
        simp only [Bool.false_eq_true, if_false, Option.getD_some]
        exact mapGet_mapSet_ne m s' s t hss
  · rw [if_neg hc]
    have : (t.serial == some s && isActiveTask t) = false := by
      rcases Bool.and_eq_false_iff.mp (Bool.not_eq_true ((t.status == TaskStatus.pending || t.status == TaskStatus.in_progress) && serialTruthy t.serial) ▸ hc) with h | h
      · simp [isActiveTask, h]
      · cases hser : t.serial with
        | none => simp [hser]
        | some s' =>
          rw [hser] at h
          have : s' = "" := by simpa [serialTruthy] using h
          simp [hser, this, Ne.symm hs]
    rw [this]
    simp

theorem mapGet_foldl_activeStep (ts : List Task) (m : List (String × Task))
    (s : String) (hs : s ≠ "") :
    mapGet (ts.foldl activeStep m) s =
      match lastActive s ts with
      | some t => some t
      | none => mapGet m s := by
  induction ts generalizing m with
  | nil => rfl
  | cons t ts ih =>
    rw [List.foldl_cons, ih (activeStep m t)]
    simp only [lastActive]
    cases hl : lastActive s ts with
    | some u => rfl
    | none =>
      show mapGet (activeStep m t) s = _
      rw [mapGet_activeStep m t s hs]
      by_cases hrel : (t.serial == some s && isActiveTask t) = true
      · rw [if_pos hrel, if_pos hrel]
      · rw [if_neg hrel, if_neg hrel]

theorem mapGet_foldl_activeStep_empty (ts : List Task)
    (m : List (String × Task)) (hm : mapGet m "" = none) :
    mapGet (ts.foldl activeStep m) "" = none := by
  induction ts generalizing m with
  | nil => exact hm
  | cons t ts ih =>
    rw [List.foldl_cons]
    refine ih _ ?_
    unfold activeStep
    by_cases hc : ((t.status == TaskStatus.pending ||
        t.status == TaskStatus.in_progress) && serialTruthy t.serial) = true
    · rw [if_pos hc]
      rcases Bool.and_eq_true_iff.mp hc with ⟨hact, htru⟩
      cases hser : t.serial with
      | none => rw [hser] at htru; cases htru
      | some s' =>
        rw [hser] at htru
        have hs' : s' ≠ "" := by simpa [serialTruthy] using htru
        simp only [Option.getD_some]
        rw [mapGet_mapSet_ne m s' "" t hs']
        exact hm
    · rw [if_neg hc]
      exact hm

end Frontend

/-- C9: the frontend predicate `hasFullBackup` returns true if and only if
some backup in the list has `full = true` and `status = 'success'`; in
particular it returns false on an empty backup list (and a backup with
`full = true` but status `failed` or `in_progress` does not satisfy it,
by the iff). -/
theorem hasFullBackup_iff (backups : List Frontend.Backup) :
    (Frontend.hasFullBackup backups = true ↔
      ∃ b ∈ backups, b.full = true ∧ b.status = Frontend.BackupStatus.success)
    ∧ Frontend.hasFullBackup [] = false := by
  refine ⟨?_, rfl⟩
  simp [Frontend.hasFullBackup, List.any_eq_true, Bool.and_eq_true_iff]

/-- C10 counterexample: a pending task whose `serial` field is the empty
string is active and has serial `some ""`, yet `activeTasksByDevice` has no
entry at key `""`, because the JavaScript guard `if (task.serial)` treats
the empty string as falsy.  This refutes the claimed iff at serial `""`. -/
theorem activeTasksByDevice_empty_serial_counterexample :
    Frontend.mapHas
      (Frontend.activeTasksByDevice
        [⟨"t1", 0, Frontend.TaskStatus.pending, some "", false⟩]) "" = false
    ∧ ∃ t ∈ [(⟨"t1", 0, Frontend.TaskStatus.pending, some "", false⟩ :
          Frontend.Task)],
        t.serial = some "" ∧ Frontend.isActiveTask t = true :=
  ⟨rfl, by decide⟩

/-- C10 (amended): `activeTasksByDevice` contains a key for serial `s` if
and only if `s` is non-empty (the JavaScript truthiness guard) and the task
list contains a task with serial `s` whose status is `'pending'` or
`'in_progress'`; the value stored at `s` is the last such task in list
order, because each `Map.set` overwrites the previous entry, so every
lookup by device yields at most one active task. -/
theorem activeTasksByDevice_spec (ts : List Frontend.Task) (s : String) :
    (Frontend.mapHas (Frontend.activeTasksByDevice ts) s = true ↔
      s ≠ "" ∧ ∃ t ∈ ts, t.serial = some s ∧ Frontend.isActiveTask t = true)
    ∧ Frontend.mapGet (Frontend.activeTasksByDevice ts) s =
        (if s = "" then none else Frontend.lastActive s ts) := by
  by_cases hs : s = ""
  · subst hs
    have hnone : Frontend.mapGet (Frontend.activeTasksByDevice ts) "" = none :=
      Frontend.mapGet_foldl_activeStep_empty ts [] rfl
    constructor
    · unfold Frontend.mapHas
      rw [hnone]
      simp
    · rw [hnone]
      simp
  · have hget : Frontend.mapGet (Frontend.activeTasksByDevice ts) s =
        Frontend.lastActive s ts := by
      unfold Frontend.activeTasksByDevice
      rw [Frontend.mapGet_foldl_activeStep ts [] s hs]
      cases hl : Frontend.lastActive s ts <;> rfl
    constructor
    · unfold Frontend.mapHas
      rw [hget, Frontend.lastActive_isSome_iff]
      simp [hs]
    · rw [hget, if_neg hs]

namespace Backend

/-- Modelled from the spec: task status, `pending | in_progress | completed | failed`
(section 3, Task).  The backend Python sources are not in the repository. -/
inductive TaskStatus
  | pending
  | in_progress
  | completed
  | failed
deriving DecidableEq, Repr

/-- Modelled from the spec: task type, `backup | restore` (section 3, Task). -/
inductive TaskType
  | backup
  | restore
deriving DecidableEq, Repr

/-- Modelled from the spec: backup status, `in_progress | success | failed`
(section 3, Backup). -/
inductive BackupStatus
  | in_progress
  | success
  | failed
deriving DecidableEq, Repr

/-- Modelled from the spec: a Task Manager task record (section 3, Task).
`cancelRequested` models the cooperative cancellation signal of
section 4.2; progress and timestamps are omitted as no claim depends on
them. -/
structure Task where
  id : Nat
  ttype : TaskType
  serial : String
  full : Bool
  status : TaskStatus
  error : Option String
  cancelRequested : Bool
deriving DecidableEq, Repr

/-- Modelled from the spec: a Backup Store record (section 3, Backup).
`id` is the sortable timestamp-derived identifier; a device's backup list
is kept in ascending `id` (= timestamp) order. -/
structure Backup where
  id : Nat
  full : Bool
  status : BackupStatus
deriving DecidableEq, Repr

/-- Modelled from the spec: a 5-field cron expression (section 3, Schedule;
section 9 suggests the pure `dueNow` form).  Each field is either a wild
card `*` (here `none`) or a single numeric value; `"* * * * *"` is the
expression with every field `none`. -/
structure Cron where
  minute : Option Nat
  hour : Option Nat
  dayOfMonth : Option Nat
  month : Option Nat
  dayOfWeek : Option Nat
deriving DecidableEq, Repr

/-- Modelled from the spec: a wall-clock minute instant against which a cron
expression is evaluated (section 9, `dueNow(cronExpr, timestamp)`). -/
structure Instant where
  minute : Nat
  hour : Nat
  dayOfMonth : Nat
  month : Nat
  dayOfWeek : Nat
deriving DecidableEq, Repr

/-- Modelled from the spec: one cron field matches a value when it is `*` or
equals the value. -/
def fieldMatches (f : Option Nat) (v : Nat) : Bool :=
  match f with
  | none => true
  | some n => n == v

/-- Modelled from the spec: the pure cron matcher `dueNow(cronExpr, timestamp)`
of section 9 — true when every field of the expression matches the instant. -/
def dueNow (c : Cron) (t : Instant) : Bool :=
  fieldMatches c.minute t.minute && fieldMatches c.hour t.hour &&
    fieldMatches c.dayOfMonth t.dayOfMonth && fieldMatches c.month t.month &&
    fieldMatches c.dayOfWeek t.dayOfWeek

/-- Modelled from the spec: a per-device schedule (section 3, Schedule).
`lastFired` is the tick-dedup key of section 4.5 / 9: the minute bucket for
which the schedule most recently fired, to avoid double-firing within one
minute. -/
structure Schedule where
  cron : Cron
  maxBackups : Nat
  enabled : Bool
  lastFired : Option Nat
deriving DecidableEq, Repr

/-- Modelled from the spec: the orchestrator state — the task table of the
Task Manager, the per-device backup lists of the Backup Store (ascending
timestamp order), the per-device schedules, and the Device Registry's sets
of known and currently-available device serials.  `nextId` allocates fresh
task ids. -/
structure SysState where
  tasks : List Task
  backups : List (String × List Backup)
  schedules : List (String × Schedule)
  known : List String
  available : List String
  nextId : Nat
deriving DecidableEq, Repr

/-- Modelled from the spec: a task counts against per-device exclusivity
while its status is `pending` or `in_progress` (section 4.2). -/
def isActive (t : Task) : Bool :=
  t.status == .pending || t.status == .in_progress

/-- Modelled from the spec: the Task Manager's per-device busy test — some
task for the serial is `pending` or `in_progress` (section 4.2). -/
def deviceBusy (s : SysState) (serial : String) : Bool :=
  s.tasks.any fun t => t.serial == serial && isActive t

/-- Modelled from the spec: `listBackups(serial)`, the device's backup list
in ascending timestamp order (section 4.3); empty when the device has no
entry. -/
def listBackups (s : SysState) (serial : String) : List Backup :=
  match s.backups.find? (fun p => p.1 == serial) with
  | some p => p.2
  | none => []

/-- Modelled from the spec: whether at least one backup with `full = true`
and `status = success` exists for the device (sections 4.3 and 4.5). -/
def hasSuccessfulFull (s : SysState) (serial : String) : Bool :=
  (listBackups s serial).any fun b => b.full && b.status == .success

/-- Modelled from the spec: `get(serial) -> Schedule | NotFound` of the
Schedule Evaluator (section 4.5), `none` for NotFound. -/
def getSchedule (s : SysState) (serial : String) : Option Schedule :=
  (s.schedules.find? (fun p => p.1 == serial)).map (·.2)

/-- Modelled from the spec: the error taxonomy of section 7 (the variants a
`submit`/`beginBackup`/`forgetDevice` call can reject with). -/
inductive OpError
  | deviceUnavailable
  | deviceBusy
  | fullBackupRequired
deriving DecidableEq, Repr

/-- Modelled from the spec: `submit(type, serial, params) -> TaskId`
(section 4.2): fails with `DeviceUnavailable` if the device is not
currently available, fails with `DeviceBusy` if a task for that serial is
pending or in_progress, fails with `FullBackupRequired` for an incremental
backup of a device with no successful full backup (validated synchronously
at submit time per section 7); otherwise creates a task with
status `pending` and a fresh id. -/
def submit (s : SysState) (tt : TaskType) (serial : String) (full : Bool) :
    Except OpError (SysState × Nat) :=
  if ¬ s.available.contains serial then .error .deviceUnavailable
  else if deviceBusy s serial then .error .deviceBusy
  else if tt == .backup && !full && !hasSuccessfulFull s serial then
    .error .fullBackupRequired
  else
    .ok ({ s with
            tasks := ⟨s.nextId, tt, serial, full, .pending, none, false⟩ ::
              s.tasks,
            nextId := s.nextId + 1 }, s.nextId)

/-- Modelled from the spec: `status(taskId) -> Task | NotFound`
(section 4.2), `none` for NotFound. -/
def findTask (s : SysState) (tid : Nat) : Option Task :=
  s.tasks.find? (fun t => t.id == tid)

/-- Modelled from the spec: pointwise update of the task record with the
given id, leaving every other task unchanged (the Task Manager owns the
records; section 3). -/
def updateTask (s : SysState) (tid : Nat) (f : Task → Task) : SysState :=
  { s with tasks := s.tasks.map fun t => if t.id == tid then f t else t }

/-- Modelled from the spec: the outcome of `cancel(taskId)` (section 4.2). -/
inductive CancelOutcome
  | success
  | notFound
deriving DecidableEq, Repr

/-- Modelled from the spec: `cancel(taskId)` (section 4.2): no-op with
success if the task is already completed or failed; otherwise records the
cooperative cancellation signal for the executor to acknowledge (the
terminal transition itself happens at the executor's acknowledgement,
modelled as a separate step). -/
def cancel (s : SysState) (tid : Nat) : SysState × CancelOutcome :=
  match findTask s tid with
  | none => (s, .notFound)
  | some t =>
    if t.status == .completed || t.status == .failed then (s, .success)
    else (updateTask s tid (fun u => { u with cancelRequested := true }),
      .success)

/-- Modelled from the spec: `forgetDevice(serial)` (section 4.1): fails with
`DeviceBusy` while the device has an active task (leaving the state
unchanged); otherwise removes the device, all its backups and its schedule. -/
def forgetDevice (s : SysState) (serial : String) : Except OpError SysState :=
  if deviceBusy s serial then .error .deviceBusy
  else .ok { s with
    known := s.known.filter (fun d => !(d == serial)),
    available := s.available.filter (fun d => !(d == serial)),
    backups := s.backups.filter (fun p => !(p.1 == serial)),
    schedules := s.schedules.filter (fun p => !(p.1 == serial)) }

end Backend

namespace Backend

/-- Modelled from the spec: replace one device's backup list in the store
(the on-disk `backups/` directory of that device; section 6). -/
def setBackups (s : SysState) (serial : String) (bs : List Backup) :
    SysState :=
  { s with backups :=
      if s.backups.any (fun p => p.1 == serial) then
        s.backups.map (fun p => if p.1 == serial then (serial, bs) else p)
      else s.backups ++ [(serial, bs)] }

/-- Modelled from the spec: `beginBackup(serial, full) -> BackupId`
(section 4.3): if `full` is false, fails with `FullBackupRequired` unless
at least one backup with `full = true, status = success` exists for the
device; otherwise allocates a new timestamp-keyed backup slot with status
`in_progress`.  `ts` is the allocation timestamp, which becomes the id. -/
def beginBackup (s : SysState) (serial : String) (full : Bool) (ts : Nat) :
    Except OpError (SysState × Nat) :=
  if !full && !hasSuccessfulFull s serial then .error .fullBackupRequired
  else
    .ok (setBackups s serial
      (listBackups s serial ++ [⟨ts, full, .in_progress⟩]), ts)

/-- Modelled from the spec: the count of successful backups in a device's
list (section 4.3). -/
def successCount (bs : List Backup) : Nat :=
  (bs.filter (fun b => b.status == .success)).length

/-- Modelled from the spec: whether `c` is the single most recent successful
full backup of the list — `c` is full and successful and every successful
full backup has a timestamp at or before `c`'s (section 4.3). -/
def isMostRecentSuccessfulFull (bs : List Backup) (c : Backup) : Bool :=
  c.full && c.status == .success &&
    bs.all (fun b => !(b.full && b.status == .success) || decide (b.id ≤ c.id))

/-- Modelled from the spec: whether a successful incremental backup newer
than `c` exists in the list (section 4.3). -/
def hasNewerSuccessfulIncremental (bs : List Backup) (c : Backup) : Bool :=
  bs.any fun b => !b.full && b.status == .success && decide (c.id < b.id)

/-- Modelled from the spec: the pruning loop of `applyRetention`
(section 4.3).  While the successful count exceeds `max_backups`, delete
the oldest successful backup (the first successful entry of the
timestamp-ascending list) — but never delete the single most recent
successful full backup while successful incrementals newer than it remain:
in that case stop early.  The fuel argument (instantiated with the list
length) bounds the iteration. -/
def pruneLoop : Nat → Nat → List Backup → List Backup
  | 0, _, bs => bs
  | fuel + 1, maxB, bs =>
    if successCount bs ≤ maxB then bs
    else
      match bs.find? (fun b => b.status == .success) with
      | none => bs
      | some c =>
        if isMostRecentSuccessfulFull bs c &&
            hasNewerSuccessfulIncremental bs c then bs
        else pruneLoop fuel maxB (bs.eraseP (fun b => b.status == .success))

/-- Modelled from the spec: `applyRetention` on one device's
timestamp-ascending backup list (section 4.3): a no-op when
`max_backups = 0` (unlimited); otherwise run the pruning loop. -/
def applyRetentionList (maxB : Nat) (bs : List Backup) : List Backup :=
  if maxB = 0 then bs else pruneLoop bs.length maxB bs

/-- Modelled from the spec: `applyRetention(serial)` (section 4.3), invoked
after a successful backup finalize; reads the schedule's `max_backups`
(a device without a schedule has no retention limit). -/
def applyRetention (s : SysState) (serial : String) : SysState :=
  match getSchedule s serial with
  | none => s
  | some sch =>
    setBackups s serial
      (applyRetentionList sch.maxBackups (listBackups s serial))

/-- Modelled from the spec: a minute-bucket tick-dedup key for an instant
(section 9: expression + minute bucket; the expression is fixed per device,
so the bucket alone suffices). -/
def minuteKey (t : Instant) : Nat :=
  ((t.month * 31 + t.dayOfMonth) * 24 + t.hour) * 60 + t.minute

/-- Modelled from the spec: record in the device's schedule the minute
bucket for which it fired (section 4.5, double-fire avoidance). -/
def setLastFired (s : SysState) (serial : String) (key : Nat) : SysState :=
  { s with schedules := s.schedules.map fun p =>
      if p.1 == serial then (p.1, { p.2 with lastFired := some key }) else p }

/-- Modelled from the spec: one evaluation of one device's schedule on the
evaluator tick (section 4.5): if the schedule exists, is enabled, its cron
expression matches the current minute and it has not already fired for this
exact minute, attempt `TaskManager.submit(backup, serial, {full:false})` —
or `{full:true}` when the device currently has no successful full backup,
so an empty device bootstraps automatically.  Submit failures
(`DeviceUnavailable`, `DeviceBusy`) are swallowed. -/
def evalSchedule (s : SysState) (serial : String) (now : Instant) : SysState :=
  match getSchedule s serial with
  | none => s
  | some sch =>
    if sch.enabled && dueNow sch.cron now &&
        !(sch.lastFired == some (minuteKey now)) then
      let full := !hasSuccessfulFull s serial
      let s1 := setLastFired s serial (minuteKey now)
      match submit s1 .backup serial full with
      | .ok (s2, _) => s2
      | .error _ => s1
    else s

end Backend

namespace Backend

theorem listBackups_forget (s : SysState) (serial : String)
    (hbusy : deviceBusy s serial = false) :
    ∃ s', forgetDevice s serial = Except.ok s' ∧
      listBackups s' serial = [] ∧ getSchedule s' serial = none := by
  refine ⟨{ s with
    known := s.known.filter (fun d => !(d == serial)),
    available := s.available.filter (fun d => !(d == serial)),
    backups := s.backups.filter (fun p => !(p.1 == serial)),
    schedules := s.schedules.filter (fun p => !(p.1 == serial)) }, ?_, ?_, ?_⟩
  · unfold forgetDevice
    rw [if_neg (by simp [hbusy])]
  · unfold listBackups
    have : (s.backups.filter (fun p => !(p.1 == serial))).find?
        (fun p => p.1 == serial) = none := by
      rw [List.find?_eq_none]
      intro x hx
      have := (List.mem_filter.mp hx).2
      simp only [Bool.not_eq_true'] at this
      simp [this]
    simp only [this]
  · unfold getSchedule
    have : (s.schedules.filter (fun p => !(p.1 == serial))).find?
        (fun p => p.1 == serial) = none := by
      rw [List.find?_eq_none]
      intro x hx
      have := (List.mem_filter.mp hx).2
      simp only [Bool.not_eq_true'] at this
      simp [this]
    rw [this]
    rfl

end Backend

/-- C8: forgetting a device with an active (pending or in-progress) task
fails with `DeviceBusy` (the state is unchanged, as the operation returns
only the error); forgetting a device with no active task removes all its
backups and its schedule, so that `listBackups` then returns the empty list
and getting the schedule returns NotFound. -/
theorem forgetDevice_spec (s : Backend.SysState) (serial : String) :
    (Backend.deviceBusy s serial = true →
      Backend.forgetDevice s serial = Except.error .deviceBusy)
    ∧ (Backend.deviceBusy s serial = false →
      ∃ s', Backend.forgetDevice s serial = Except.ok s' ∧
        Backend.listBackups s' serial = [] ∧
        Backend.getSchedule s' serial = none) := by
  constructor
  · intro hbusy
    unfold Backend.forgetDevice
    rw [if_pos (by simp [hbusy])]
  · intro hbusy
    exact Backend.listBackups_forget s serial hbusy

/-- C2: `beginBackup(serial, full := false)` fails with `FullBackupRequired`
for a device with no successful full backup, and is accepted for a device
that has at least one backup with `full = true` and `status = success`;
likewise a full `submit` of an incremental backup succeeds for an available
non-busy device with a successful full backup. -/
theorem beginBackup_chain (s : Backend.SysState) (serial : String) (ts : Nat) :
    (Backend.hasSuccessfulFull s serial = false →
      Backend.beginBackup s serial false ts = Except.error .fullBackupRequired)
    ∧ (Backend.hasSuccessfulFull s serial = true →
      ∃ s', Backend.beginBackup s serial false ts = Except.ok (s', ts))
    ∧ (s.available.contains serial = true →
      Backend.deviceBusy s serial = false →
      Backend.hasSuccessfulFull s serial = true →
      ∃ s' tid, Backend.submit s .backup serial false = Except.ok (s', tid)) := by
  refine ⟨?_, ?_, ?_⟩
  · intro h
    unfold Backend.beginBackup
    rw [if_pos (by simp [h])]
  · intro h
    unfold Backend.beginBackup
    rw [if_neg (by simp [h])]
    exact ⟨_, rfl⟩
  · intro hav hbusy hfull
    unfold Backend.submit
    rw [if_neg (not_not_intro hav), if_neg (by simp [hbusy]),
      if_neg (by simp [hfull])]
    exact ⟨_, _, rfl⟩

/-- C8 witness: the busy branch at a device with a pending task, and the
removal branch at a device without one, both on a concrete state. -/
theorem forgetDevice_spec_witness :
    (Backend.deviceBusy ⟨[⟨0, .backup, "a", true, .pending, none, false⟩],
        [], [], ["a", "b"], ["a", "b"], 1⟩ "a" = true ∧
      Backend.forgetDevice ⟨[⟨0, .backup, "a", true, .pending, none, false⟩],
        [], [], ["a", "b"], ["a", "b"], 1⟩ "a" = Except.error .deviceBusy)
    ∧ (Backend.deviceBusy ⟨[⟨0, .backup, "a", true, .pending, none, false⟩],
        [], [], ["a", "b"], ["a", "b"], 1⟩ "b" = false ∧
      ∃ s', Backend.forgetDevice
          ⟨[⟨0, .backup, "a", true, .pending, none, false⟩],
            [], [], ["a", "b"], ["a", "b"], 1⟩ "b" = Except.ok s' ∧
        Backend.listBackups s' "b" = [] ∧
        Backend.getSchedule s' "b" = none) :=
  ⟨⟨by decide, (forgetDevice_spec _ "a").1 (by decide)⟩,
   ⟨by decide, (forgetDevice_spec _ "b").2 (by decide)⟩⟩

/-- C2 witness: the rejection branch on a device with no backups at all, and
the acceptance branches on a device with one successful full backup. -/
theorem beginBackup_chain_witness :
    (Backend.hasSuccessfulFull ⟨[], [], [], ["a"], ["a"], 0⟩ "a" = false ∧
      Backend.beginBackup ⟨[], [], [], ["a"], ["a"], 0⟩ "a" false 5 =
        Except.error .fullBackupRequired)
    ∧ (Backend.hasSuccessfulFull
        ⟨[], [("a", [⟨1, true, .success⟩])], [], ["a"], ["a"], 0⟩ "a" = true ∧
      ∃ s', Backend.beginBackup
          ⟨[], [("a", [⟨1, true, .success⟩])], [], ["a"], ["a"], 0⟩ "a" false 5 =
        Except.ok (s', 5))
    ∧ ∃ s' tid, Backend.submit
        ⟨[], [("a", [⟨1, true, .success⟩])], [], ["a"], ["a"], 0⟩ .backup "a"
        false = Except.ok (s', tid) :=
  ⟨⟨by decide, (beginBackup_chain _ "a" 5).1 (by decide)⟩,
   ⟨by decide, (beginBackup_chain _ "a" 5).2.1 (by decide)⟩,
   (beginBackup_chain _ "a" 5).2.2 (by decide) (by decide) (by decide)⟩

/-- C4 counterexample: with `max_backups = 2` and backups
t1 (full, success), t2 (incremental, success), t3 (incremental, success),
retention does NOT leave only t2 and t3: t1 is the single most recent
successful full backup and successful incrementals newer than it exist, so
the chain-preservation rule of the retention policy stops pruning before
deleting it. -/
theorem applyRetention_t1_counterexample :
    Backend.applyRetentionList 2
        [⟨1, true, .success⟩, ⟨2, false, .success⟩, ⟨3, false, .success⟩] ≠
      [⟨2, false, .success⟩, ⟨3, false, .success⟩] := by
  decide

/-- C4 (amended): with `max_backups = 2` and backups t1 (full, success),
t2 (incremental, success), t3 (incremental, success), retention after t3
finalizes leaves all three backups: deleting the oldest successful backup
t1 would orphan the newer successful incrementals t2 and t3, so retention
stops early without deleting anything. -/
theorem applyRetention_t1_protected :
    Backend.applyRetentionList 2
        [⟨1, true, .success⟩, ⟨2, false, .success⟩, ⟨3, false, .success⟩] =
      [⟨1, true, .success⟩, ⟨2, false, .success⟩, ⟨3, false, .success⟩] := by
  decide

/-- C3 counterexample: in the state f1 (full, success), i2 (incremental,
success), m3 (full, success), i4 (incremental, success) with
`max_backups = 3`, the most recent successful full backup m3 has a newer
successful incremental (i4), so the claim's hypothesis holds — yet
retention deletes f1 (it is not the single most recent successful full
backup, so the early-stop guard does not protect it), leaving the retained
successful incremental i2 with no successful full backup at or before it:
the chain invariant fails after `applyRetention`. -/
theorem applyRetention_chain_counterexample :
    Backend.isMostRecentSuccessfulFull
        [⟨1, true, .success⟩, ⟨2, false, .success⟩,
          ⟨3, true, .success⟩, ⟨4, false, .success⟩] ⟨3, true, .success⟩ = true
    ∧ Backend.hasNewerSuccessfulIncremental
        [⟨1, true, .success⟩, ⟨2, false, .success⟩,
          ⟨3, true, .success⟩, ⟨4, false, .success⟩] ⟨3, true, .success⟩ = true
    ∧ Backend.applyRetentionList 3
        [⟨1, true, .success⟩, ⟨2, false, .success⟩,
          ⟨3, true, .success⟩, ⟨4, false, .success⟩] =
      [⟨2, false, .success⟩, ⟨3, true, .success⟩, ⟨4, false, .success⟩]
    ∧ ¬ ∃ f ∈ [(⟨2, false, .success⟩ : Backend.Backup),
          ⟨3, true, .success⟩, ⟨4, false, .success⟩],
        f.full = true ∧ f.status = .success ∧ f.id ≤ 2 := by
  decide

namespace Backend

theorem find?_pairwise_first {α : Type} {R : α → α → Prop} {p : α → Bool}
    {bs : List α} {d : α} (hp : bs.Pairwise R) (hfind : bs.find? p = some d) :
    ∀ x ∈ bs, p x = true → x = d ∨ R d x := by
  induction bs with
  | nil => cases hfind
  | cons a l ih =>
    by_cases hpa : p a = true
    · rw [List.find?_cons_of_pos l hpa] at hfind
      cases hfind
      intro x hx _
      rcases List.mem_cons.mp hx with rfl | hx
      · exact Or.inl rfl
      · exact Or.inr ((List.pairwise_cons.mp hp).1 x hx)
    · rw [List.find?_cons_of_neg l hpa] at hfind
      intro x hx hpx
      rcases List.mem_cons.mp hx with rfl | hx
      · exact absurd hpx hpa
      · exact ih (List.pairwise_cons.mp hp).2 hfind x hx hpx

theorem mem_eraseP_of_find?_ne {α : Type} {p : α → Bool} {bs : List α}
    {c d : α} (hfind : bs.find? p = some d) (hc : c ∈ bs) (hne : c ≠ d) :
    c ∈ bs.eraseP p := by
  induction bs with
  | nil => cases hc
  | cons a l ih =>
    by_cases hpa : p a = true
    · rw [List.find?_cons_of_pos l hpa] at hfind
      cases hfind
      rw [List.eraseP_cons_of_pos hpa]
      rcases List.mem_cons.mp hc with rfl | hc
      · exact absurd rfl hne
      · exact hc
    · rw [List.find?_cons_of_neg l hpa] at hfind
      rw [List.eraseP_cons_of_neg hpa]
      rcases List.mem_cons.mp hc with rfl | hc
      · exact List.mem_cons_self _ _
      · exact List.mem_cons_of_mem _ (ih hfind hc)

theorem pruneLoop_keeps_recent_full (fuel maxB : Nat) (c : Backup) :
    ∀ bs : List Backup,
      bs.Pairwise (fun a b => a.id < b.id) →
      c ∈ bs → c.full = true → c.status = BackupStatus.success →
      (∀ b ∈ bs, b.full = true → b.status = BackupStatus.success →
        b.id ≤ c.id) →
      (∃ b ∈ bs, b.full = false ∧ b.status = BackupStatus.success ∧
        c.id < b.id) →
      c ∈ pruneLoop fuel maxB bs := by
  induction fuel with
  | zero =>
    intro bs _ hmem _ _ _ _
    exact hmem
  | succ fuel ih =>
    intro bs hsort hmem hfull hsucc hmax hnew
    unfold pruneLoop
    by_cases hcnt : successCount bs ≤ maxB
    · rw [if_pos hcnt]
      exact hmem
    · rw [if_neg hcnt]
      cases hfind : bs.find? (fun b => b.status == BackupStatus.success) with
      | none => exact hmem
      | some d =>
        show c ∈
          if (isMostRecentSuccessfulFull bs d &&
              hasNewerSuccessfulIncremental bs d) = true then bs
          else pruneLoop fuel maxB
            (bs.eraseP (fun b => b.status == BackupStatus.success))
        by_cases hguard : (isMostRecentSuccessfulFull bs d &&
            hasNewerSuccessfulIncremental bs d) = true
        · rw [if_pos hguard]
          exact hmem
        · rw [if_neg hguard]
          have hcd : c ≠ d := by
            rintro rfl
            apply hguard
            rw [Bool.and_eq_true_iff]
            constructor
            · unfold isMostRecentSuccessfulFull
              rw [hfull, hsucc]
              simp only [Bool.true_and, beq_self_eq_true]
              rw [List.all_eq_true]
              intro b hb
              by_cases hbf : (b.full && b.status == BackupStatus.success) = true
              · rcases Bool.and_eq_true_iff.mp hbf with ⟨h1, h2⟩
                have := hmax b hb h1 (by simpa using h2)
                simp [this]
              · simp only [Bool.not_eq_true] at hbf
                simp [hbf]
            · unfold hasNewerSuccessfulIncremental
              rw [List.any_eq_true]
              rcases hnew with ⟨b, hb, h1, h2, h3⟩
              exact ⟨b, hb, by simp [h1, h2, h3]⟩
          have hdc : d.id < c.id := by
            rcases find?_pairwise_first hsort hfind c hmem (by simp [hsucc])
              with h | h
            · exact absurd h hcd
            · exact h
          refine ih _ (List.Pairwise.sublist (List.eraseP_sublist _) hsort)
            (mem_eraseP_of_find?_ne hfind hmem hcd) hfull hsucc ?_ ?_
          · intro b hb
            exact hmax b ((List.eraseP_sublist _).subset hb)
          · rcases hnew with ⟨b, hb, h1, h2, h3⟩
            have hbd : b ≠ d := by
              rintro rfl
              omega
            exact ⟨b, mem_eraseP_of_find?_ne hfind hb hbd, h1, h2, h3⟩

end Backend

/-- C3 (amended): when the single most recent successful full backup c of a
device has successful incremental backups newer than it, `applyRetention`
never deletes c (the pruning loop stops early at c), so every retained
successful incremental newer than c still has a successful full backup at
or before it.  (The original claim's further conclusion — that the whole
retained set satisfies the chain invariant — fails: a successful
incremental OLDER than c can be orphaned when an earlier full backup is
pruned, see the counterexample.) -/
theorem applyRetention_preserves_recent_full (maxB : Nat)
    (bs : List Backend.Backup) (c : Backend.Backup)
    (hsort : bs.Pairwise (fun a b => a.id < b.id))
    (hmem : c ∈ bs) (hfull : c.full = true)
    (hsucc : c.status = Backend.BackupStatus.success)
    (hmax : ∀ b ∈ bs, b.full = true →
      b.status = Backend.BackupStatus.success → b.id ≤ c.id)
    (hnew : ∃ b ∈ bs, b.full = false ∧
      b.status = Backend.BackupStatus.success ∧ c.id < b.id) :
    c ∈ Backend.applyRetentionList maxB bs ∧
      ∀ b ∈ Backend.applyRetentionList maxB bs, b.full = false →
        b.status = Backend.BackupStatus.success → c.id < b.id →
        ∃ f ∈ Backend.applyRetentionList maxB bs, f.full = true ∧
          f.status = Backend.BackupStatus.success ∧ f.id ≤ b.id := by
  have hc : c ∈ Backend.applyRetentionList maxB bs := by
    unfold Backend.applyRetentionList
    by_cases h0 : maxB = 0
    · rw [if_pos h0]
      exact hmem
    · rw [if_neg h0]
      exact Backend.pruneLoop_keeps_recent_full _ _ c bs hsort hmem hfull
        hsucc hmax hnew
  exact ⟨hc, fun b _ _ _ hlt => ⟨c, hc, hfull, hsucc, le_of_lt hlt⟩⟩

/-- C3 witness: a device with one successful full backup and one newer
successful incremental, `max_backups = 1`: the full backup is retained. -/
theorem applyRetention_preserves_recent_full_witness :
    (⟨1, true, Backend.BackupStatus.success⟩ : Backend.Backup) ∈
      Backend.applyRetentionList 1
        [⟨1, true, .success⟩, ⟨2, false, .success⟩] ∧
      ∀ b ∈ Backend.applyRetentionList 1
          [(⟨1, true, .success⟩ : Backend.Backup), ⟨2, false, .success⟩],
        b.full = false → b.status = Backend.BackupStatus.success →
        (1 : Nat) < b.id →
        ∃ f ∈ Backend.applyRetentionList 1
            [(⟨1, true, .success⟩ : Backend.Backup), ⟨2, false, .success⟩],
          f.full = true ∧ f.status = Backend.BackupStatus.success ∧
            f.id ≤ b.id :=
  applyRetention_preserves_recent_full 1
    [⟨1, true, .success⟩, ⟨2, false, .success⟩] ⟨1, true, .success⟩
    (by decide) (by decide) (by decide) (by decide) (by decide) (by decide)

namespace Backend

theorem submit_ok (s : SysState) (tt : TaskType) (serial : String)
    (full : Bool) (hav : s.available.contains serial = true)
    (hbusy : deviceBusy s serial = false)
    (hchain : (tt == TaskType.backup && !full &&
      !hasSuccessfulFull s serial) = false) :
    submit s tt serial full = Except.ok ({ s with
      tasks := ⟨s.nextId, tt, serial, full, .pending, none, false⟩ :: s.tasks,
      nextId := s.nextId + 1 }, s.nextId) := by
  unfold submit
  rw [if_neg (not_not_intro hav), if_neg (by simp [hbusy]),
    if_neg (by simp [hchain])]

end Backend

/-- C7: one evaluation of an enabled schedule whose cron expression matches
the current minute (and which has not already fired for that minute), for
an available device with no other active task, submits exactly one backup
task: with `full = false` when the device has a successful full backup and
`full = true` when it has none, so an empty device bootstraps with a full
backup — in particular a single evaluation with no prior full backup
produces exactly one new task, with `full = true`. -/
theorem evalSchedule_spec (s : Backend.SysState) (serial : String)
    (now : Backend.Instant) (sch : Backend.Schedule)
    (hsch : Backend.getSchedule s serial = some sch)
    (hen : sch.enabled = true)
    (hdue : Backend.dueNow sch.cron now = true)
    (hflt : sch.lastFired ≠ some (Backend.minuteKey now))
    (hav : s.available.contains serial = true)
    (hbusy : Backend.deviceBusy s serial = false) :
    (Backend.evalSchedule s serial now).tasks =
      ⟨s.nextId, .backup, serial, !Backend.hasSuccessfulFull s serial,
        .pending, none, false⟩ :: s.tasks := by
  unfold Backend.evalSchedule
  rw [hsch]
  show (if (sch.enabled && Backend.dueNow sch.cron now &&
      !(sch.lastFired == some (Backend.minuteKey now))) = true then _
    else s).tasks = _
  rw [if_pos (by simp [hen, hdue, hflt])]
  show (match Backend.submit
      (Backend.setLastFired s serial (Backend.minuteKey now))
      Backend.TaskType.backup serial
      (!Backend.hasSuccessfulFull s serial) with
    | Except.ok (s2, _) => s2
    | Except.error _ =>
      Backend.setLastFired s serial (Backend.minuteKey now)).tasks = _
  rw [Backend.submit_ok (Backend.setLastFired s serial
      (Backend.minuteKey now)) .backup serial
      (!Backend.hasSuccessfulFull s serial) hav hbusy ?_]
  · rfl
  · have heq : Backend.hasSuccessfulFull
        (Backend.setLastFired s serial (Backend.minuteKey now)) serial =
        Backend.hasSuccessfulFull s serial := rfl
    rw [heq]
    cases h : Backend.hasSuccessfulFull s serial <;> simp [h]

/-- C7 witness: a concrete device with an enabled `"* * * * *"` schedule,
no backups at all, available and idle: one evaluation produces exactly one
new task, a full backup. -/
theorem evalSchedule_spec_witness :
    Backend.hasSuccessfulFull
      ⟨[], [], [("a", ⟨⟨none, none, none, none, none⟩, 0, true, none⟩)],
        ["a"], ["a"], 0⟩ "a" = false
    ∧ (Backend.evalSchedule
        ⟨[], [], [("a", ⟨⟨none, none, none, none, none⟩, 0, true, none⟩)],
          ["a"], ["a"], 0⟩ "a" ⟨0, 0, 1, 1, 0⟩).tasks =
      [⟨0, .backup, "a", true, .pending, none, false⟩] :=
  ⟨by decide,
    evalSchedule_spec
      ⟨[], [], [("a", ⟨⟨none, none, none, none, none⟩, 0, true, none⟩)],
        ["a"], ["a"], 0⟩ "a" ⟨0, 0, 1, 1, 0⟩
      ⟨⟨none, none, none, none, none⟩, 0, true, none⟩
      rfl rfl rfl (by decide) rfl rfl⟩

namespace Backend

/-- Modelled from the spec: the transitions of the single-process
orchestrator (sections 4 and 5).  A step is a successful `submit`, the
asynchronous pending-to-in_progress start, a terminal transition reported
by the executor (completion, executor failure, or acknowledgement of a
pending cancellation — within the grace period the executor acknowledges
an observed cancellation signal rather than reporting its own result,
section 4.4), a `cancel` call, a successful `forgetDevice`, a retention
pass, a successful `beginBackup`, one schedule evaluation, or a discovery
sweep reporting a device seen or lost. -/
inductive Step : SysState → SysState → Prop
  | doSubmit (s : SysState) (tt : TaskType) (serial : String) (full : Bool)
      (s' : SysState) (tid : Nat)
      (h : submit s tt serial full = Except.ok (s', tid)) : Step s s'
  | doStart (s : SysState) (tid : Nat) (t : Task)
      (h : findTask s tid = some t) (hp : t.status = .pending) :
      Step s (updateTask s tid (fun u => { u with status := .in_progress }))
  | doComplete (s : SysState) (tid : Nat) (t : Task)
      (h : findTask s tid = some t) (hp : t.status = .in_progress)
      (hc : t.cancelRequested = false) :
      Step s (updateTask s tid (fun u => { u with status := .completed }))
  | doFail (s : SysState) (tid : Nat) (t : Task) (msg : String)
      (h : findTask s tid = some t) (hp : t.status = .in_progress)
      (hc : t.cancelRequested = false) :
      Step s (updateTask s tid
        (fun u => { u with status := .failed, error := some msg }))
  | doAckCancel (s : SysState) (tid : Nat) (t : Task)
      (h : findTask s tid = some t) (hp : t.status = .in_progress)
      (hc : t.cancelRequested = true) :
      Step s (updateTask s tid
        (fun u => { u with status := .failed, error := some "cancelled" }))
  | doCancelReq (s : SysState) (tid : Nat) : Step s (cancel s tid).1
  | doForget (s : SysState) (serial : String) (s' : SysState)
      (h : forgetDevice s serial = Except.ok s') : Step s s'
  | doRetention (s : SysState) (serial : String) :
      Step s (applyRetention s serial)
  | doBegin (s : SysState) (serial : String) (full : Bool) (ts : Nat)
      (s' : SysState) (bid : Nat)
      (h : beginBackup s serial full ts = Except.ok (s', bid)) : Step s s'
  | doEval (s : SysState) (serial : String) (now : Instant) :
      Step s (evalSchedule s serial now)
  | doSeen (s : SysState) (serial : String) :
      Step s
        { s with
          available := serial :: s.available
          known := serial :: s.known }
  | doLost (s : SysState) (serial : String) :
      Step s
        { s with available := s.available.filter (fun d => !(d == serial)) }

/-- Modelled from the spec: the initial state of the orchestrator — no
devices, no backups, no schedules, no tasks. -/
def initState : SysState := ⟨[], [], [], [], [], 0⟩

/-- Modelled from the spec: a state the orchestrator can reach from the
initial state by any sequence of transitions. -/
def Reachable (s : SysState) : Prop :=
  Relation.ReflTransGen Step initState s

/-- Every task id in the table is below the allocation counter (so a fresh
submit never collides with an existing task) and task ids are pairwise
distinct. -/
def WellFormed (s : SysState) : Prop :=
  (∀ t ∈ s.tasks, t.id < s.nextId) ∧
    s.tasks.Pairwise (fun a b => a.id ≠ b.id)

/-- Modelled from the spec: the concurrency invariant of section 4.2 — for
each device serial, at most one task is `pending` or `in_progress`. -/
def ExclusivePerDevice (s : SysState) : Prop :=
  ∀ serial : String,
    (s.tasks.filter (fun t => t.serial == serial && isActive t)).length ≤ 1

theorem submit_inv (s : SysState) (tt : TaskType) (serial : String)
    (full : Bool) (s' : SysState) (tid : Nat)
    (h : submit s tt serial full = Except.ok (s', tid)) :
    deviceBusy s serial = false ∧
      s'.tasks = ⟨s.nextId, tt, serial, full, .pending, none, false⟩ ::
        s.tasks ∧ s'.nextId = s.nextId + 1 := by
  unfold submit at h
  split at h
  · cases h
  · split at h
    · cases h
    · split at h
      · cases h
      · rename_i hbusy _
        cases h
        exact ⟨Bool.not_eq_true _ ▸ hbusy, rfl, rfl⟩

theorem forgetDevice_inv (s : SysState) (serial : String) (s' : SysState)
    (h : forgetDevice s serial = Except.ok s') :
    s'.tasks = s.tasks ∧ s'.nextId = s.nextId := by
  unfold forgetDevice at h
  split at h
  · cases h
  · cases h
    exact ⟨rfl, rfl⟩

theorem beginBackup_inv (s : SysState) (serial : String) (full : Bool)
    (ts : Nat) (s' : SysState) (bid : Nat)
    (h : beginBackup s serial full ts = Except.ok (s', bid)) :
    s'.tasks = s.tasks ∧ s'.nextId = s.nextId := by
  unfold beginBackup at h
  split at h
  · cases h
  · cases h
    unfold setBackups
    exact ⟨rfl, rfl⟩

theorem applyRetention_tasks (s : SysState) (serial : String) :
    (applyRetention s serial).tasks = s.tasks ∧
      (applyRetention s serial).nextId = s.nextId := by
  unfold applyRetention
  cases getSchedule s serial with
  | none => exact ⟨rfl, rfl⟩
  | some sch => exact ⟨rfl, rfl⟩

theorem cancel_shape (s : SysState) (tid : Nat) :
    (cancel s tid).1 = s ∨
      ∃ t, findTask s tid = some t ∧ (cancel s tid).1 =
        updateTask s tid (fun u => { u with cancelRequested := true }) := by
  unfold cancel
  cases hf : findTask s tid with
  | none => exact Or.inl rfl
  | some t =>
    by_cases ht : (t.status == TaskStatus.completed ||
        t.status == TaskStatus.failed) = true
    · left
      show (if (t.status == TaskStatus.completed ||
          t.status == TaskStatus.failed) = true then (s, CancelOutcome.success)
        else _).1 = s
      rw [if_pos ht]
    · refine Or.inr ⟨t, rfl, ?_⟩
      show (if (t.status == TaskStatus.completed ||
          t.status == TaskStatus.failed) = true then (s, CancelOutcome.success)
        else (updateTask s tid (fun u => { u with cancelRequested := true }),
          CancelOutcome.success)).1 = _
      rw [if_neg ht]

theorem evalSchedule_eq (s : SysState) (serial : String) (now : Instant)
    (sch : Schedule) (hg : getSchedule s serial = some sch) :
    evalSchedule s serial now =
      if (sch.enabled && dueNow sch.cron now &&
          !(sch.lastFired == some (minuteKey now))) = true then
        match submit (setLastFired s serial (minuteKey now)) TaskType.backup
            serial (!hasSuccessfulFull s serial) with
        | Except.ok (s2, _) => s2
        | Except.error _ => setLastFired s serial (minuteKey now)
      else s := by
  unfold evalSchedule
  rw [hg]

theorem evalSchedule_shape (s : SysState) (serial : String) (now : Instant) :
    ((evalSchedule s serial now).tasks = s.tasks ∧
      (evalSchedule s serial now).nextId = s.nextId) ∨
    (deviceBusy s serial = false ∧
      (evalSchedule s serial now).tasks =
        ⟨s.nextId, .backup, serial, !hasSuccessfulFull s serial,
          .pending, none, false⟩ :: s.tasks ∧
      (evalSchedule s serial now).nextId = s.nextId + 1) := by
  cases hg : getSchedule s serial with
  | none =>
    left
    unfold evalSchedule
    rw [hg]
    exact ⟨rfl, rfl⟩
  | some sch =>
    rw [evalSchedule_eq s serial now sch hg]
    by_cases hcond : (sch.enabled && dueNow sch.cron now &&
        !(sch.lastFired == some (minuteKey now))) = true
    · rw [if_pos hcond]
      cases hsub : submit (setLastFired s serial (minuteKey now))
          TaskType.backup serial (!hasSuccessfulFull s serial) with
      | error e => exact Or.inl ⟨rfl, rfl⟩
      | ok p =>
        obtain ⟨s2, tid⟩ := p
        have hinv := submit_inv _ _ _ _ _ _ hsub
        exact Or.inr ⟨hinv.1, hinv.2.1, hinv.2.2⟩
    · rw [if_neg hcond]
      exact Or.inl ⟨rfl, rfl⟩

/-- Modelled from the spec: the task state machine of section 4.2 —
`pending -> in_progress -> {completed | failed}`; a status may stay put,
and no transition leaves a terminal status. -/
def follows (a b : TaskStatus) : Prop :=
  a = b ∨ (a = .pending ∧ b = .in_progress) ∨
    (a = .in_progress ∧ (b = .completed ∨ b = .failed))

/-- A task that has been cancelled while in progress: it is either still in
progress with the cancellation signal pending, or already terminally failed
with error "cancelled". -/
def CancelSafe (t : Task) : Prop :=
  (t.status = .in_progress ∧ t.cancelRequested = true) ∨
    (t.status = .failed ∧ t.error = some "cancelled")

theorem step_shape (s s' : SysState) (h : Step s s') :
    (s'.tasks = s.tasks ∧ s'.nextId = s.nextId)
    ∨ (∃ tt serial full, deviceBusy s serial = false ∧
        s'.tasks = ⟨s.nextId, tt, serial, full, TaskStatus.pending, none,
          false⟩ :: s.tasks ∧ s'.nextId = s.nextId + 1)
    ∨ (∃ (tid : Nat) (g : Task → Task) (t : Task),
        findTask s tid = some t ∧
        (∀ u, (g u).id = u.id) ∧ (∀ u, (g u).serial = u.serial) ∧
        (isActive (g t) = true → isActive t = true) ∧
        follows t.status (g t).status ∧
        (CancelSafe t → CancelSafe (g t)) ∧
        s'.tasks = s.tasks.map (fun u => if u.id == tid then g u else u) ∧
        s'.nextId = s.nextId) := by
  cases h with
  | doSubmit tt serial full s' tid hsub =>
    have hinv := submit_inv _ _ _ _ _ _ hsub
    exact Or.inr (Or.inl ⟨tt, serial, full, hinv.1, hinv.2.1, hinv.2.2⟩)
  | doStart tid t hf hp =>
    refine Or.inr (Or.inr ⟨tid,
      (fun u => { u with status := TaskStatus.in_progress }), t, hf,
      fun u => rfl, fun u => rfl, ?_, ?_, ?_, rfl, rfl⟩)
    · intro _
      simp [isActive, hp]
    · exact Or.inr (Or.inl ⟨hp, rfl⟩)
    · rintro (⟨h1, _⟩ | ⟨h1, _⟩) <;> rw [hp] at h1 <;> cases h1
  | doComplete tid t hf hp hc =>
    refine Or.inr (Or.inr ⟨tid,
      (fun u => { u with status := TaskStatus.completed }), t, hf,
      fun u => rfl, fun u => rfl, ?_, ?_, ?_, rfl, rfl⟩)
    · intro hcontra
      simp [isActive] at hcontra
    · exact Or.inr (Or.inr ⟨hp, Or.inl rfl⟩)
    · rintro (⟨_, h2⟩ | ⟨h1, _⟩)
      · rw [hc] at h2
        cases h2
      · rw [hp] at h1
        cases h1
  | doFail tid t msg hf hp hc =>
    refine Or.inr (Or.inr ⟨tid,
      (fun u => { u with status := TaskStatus.failed, error := some msg }),
      t, hf, fun u => rfl, fun u => rfl, ?_, ?_, ?_, rfl, rfl⟩)
    · intro hcontra
      simp [isActive] at hcontra
    · exact Or.inr (Or.inr ⟨hp, Or.inr rfl⟩)
    · rintro (⟨_, h2⟩ | ⟨h1, _⟩)
      · rw [hc] at h2
        cases h2
      · rw [hp] at h1
        cases h1
  | doAckCancel tid t hf hp hc =>
    refine Or.inr (Or.inr ⟨tid,
      (fun u => { u with status := TaskStatus.failed, error := some "cancelled" }),
      t, hf, fun u => rfl, fun u => rfl, ?_, ?_, ?_, rfl, rfl⟩)
    · intro hcontra
      simp [isActive] at hcontra
    · exact Or.inr (Or.inr ⟨hp, Or.inr rfl⟩)
    · intro _
      exact Or.inr ⟨rfl, rfl⟩
  | doCancelReq tid =>
    rcases cancel_shape s tid with hcs | ⟨t, hf, hcs⟩
    · rw [hcs]
      exact Or.inl ⟨rfl, rfl⟩
    · rw [hcs]
      refine Or.inr (Or.inr ⟨tid,
        (fun u => { u with cancelRequested := true }), t, hf,
        fun u => rfl, fun u => rfl, fun h => h, Or.inl rfl, ?_, rfl, rfl⟩)
      rintro (⟨h1, _⟩ | ⟨h1, h2⟩)
      · exact Or.inl ⟨h1, rfl⟩
      · exact Or.inr ⟨h1, h2⟩
  | doForget serial s' hfg =>
    exact Or.inl (forgetDevice_inv s serial s' hfg)
  | doRetention serial =>
    exact Or.inl (applyRetention_tasks s serial)
  | doBegin serial full ts s' bid hb =>
    exact Or.inl (beginBackup_inv s serial full ts s' bid hb)
  | doEval serial now =>
    rcases evalSchedule_shape s serial now with hsh | ⟨hb, ht, hn⟩
    · exact Or.inl hsh
    · exact Or.inr (Or.inl ⟨.backup, serial, _, hb, ht, hn⟩)
  | doSeen serial => exact Or.inl ⟨rfl, rfl⟩
  | doLost serial => exact Or.inl ⟨rfl, rfl⟩

theorem busy_filter_nil (s : SysState) (serial : String)
    (h : deviceBusy s serial = false) :
    s.tasks.filter (fun t => t.serial == serial && isActive t) = [] := by
  rw [List.filter_eq_nil_iff]
  intro t ht
  unfold deviceBusy at h
  rw [List.any_eq_false] at h
  exact h t ht

theorem map_update_id (tid : Nat) (g : Task → Task) (l : List Task)
    (h : ∀ u ∈ l, (u.id == tid) = false) :
    l.map (fun u => if u.id == tid then g u else u) = l := by
  induction l with
  | nil => rfl
  | cons a l ih =>
    rw [List.map_cons, if_neg (by simp [h a (List.mem_cons_self a l)]),
      ih (fun u hu => h u (List.mem_cons_of_mem a hu))]

theorem filter_length_update_le (tid : Nat) (g : Task → Task)
    (hser : ∀ u, (g u).serial = u.serial) (serial : String) :
    ∀ (l : List Task) (t : Task),
      l.find? (fun u => u.id == tid) = some t →
      l.Pairwise (fun a b => a.id ≠ b.id) →
      (isActive (g t) = true → isActive t = true) →
      (List.filter (fun u => u.serial == serial && isActive u)
        (l.map (fun u => if u.id == tid then g u else u))).length ≤
      (l.filter (fun u => u.serial == serial && isActive u)).length := by
  intro l
  induction l with
  | nil => intro t hfind _ _; cases hfind
  | cons a l ih =>
    intro t hfind hpair hact
    by_cases ha : (a.id == tid) = true
    · rw [List.find?_cons_of_pos l ha] at hfind
      cases hfind
      rw [List.map_cons, if_pos ha,
        map_update_id tid g l (fun u hu => by
          have hne := (List.pairwise_cons.mp hpair).1 u hu
          simp only [beq_iff_eq] at ha
          simp only [beq_eq_false_iff_ne, ne_eq]
          rw [← ha]
          exact fun hc => hne hc.symm)]
      rw [List.filter_cons, List.filter_cons]
      by_cases hga : ((g a).serial == serial && isActive (g a)) = true
      · have hpa : (a.serial == serial && isActive a) = true := by
          rcases Bool.and_eq_true_iff.mp hga with ⟨h1, h2⟩
          rw [hser a] at h1
          rw [Bool.and_eq_true_iff]
          exact ⟨h1, hact h2⟩
        rw [if_pos hga, if_pos hpa]
        simp
      · rw [if_neg hga]
        split
        · simp
        · exact le_refl _
    · rw [List.find?_cons_of_neg l ha] at hfind
      rw [List.map_cons, if_neg ha, List.filter_cons, List.filter_cons]
      have hrec := ih t hfind (List.pairwise_cons.mp hpair).2 hact
      split
      · simpa using hrec
      · exact hrec

theorem wf_step (s s' : SysState) (h : Step s s') (hwf : WellFormed s) :
    WellFormed s' := by
  obtain ⟨hbound, hpair⟩ := hwf
  rcases step_shape s s' h with ⟨ht, hn⟩ |
    ⟨tt, serial, full, hb, ht, hn⟩ |
    ⟨tid, g, t, hf, hid, hser, hact, _, _, ht, hn⟩
  · exact ⟨fun t ht' => hn ▸ hbound t (ht ▸ ht'), ht ▸ hpair⟩
  · constructor
    · intro u hu
      rw [ht] at hu
      rw [hn]
      rcases List.mem_cons.mp hu with rfl | hu
      · exact Nat.lt_succ_self _
      · exact Nat.lt_succ_of_lt (hbound u hu)
    · rw [ht, List.pairwise_cons]
      constructor
      · intro u hu
        have := hbound u hu
        show s.nextId ≠ u.id
        omega
      · exact hpair
  · constructor
    · intro u hu
      rw [ht] at hu
      rcases List.mem_map.mp hu with ⟨v, hv, rfl⟩
      rw [hn]
      have hvid : (if (v.id == tid) = true then g v else v).id = v.id := by
        split
        · exact hid v
        · rfl
      rw [hvid]
      exact hbound v hv
    · rw [ht]
      refine hpair.map _ ?_
      intro a b hab
      have hai : (if (a.id == tid) = true then g a else a).id = a.id := by
        split
        · exact hid a
        · rfl
      have hbi : (if (b.id == tid) = true then g b else b).id = b.id := by
        split
        · exact hid b
        · rfl
      rw [hai, hbi]
      exact hab

theorem excl_step (s s' : SysState) (h : Step s s') (hwf : WellFormed s)
    (hex : ExclusivePerDevice s) : ExclusivePerDevice s' := by
  rcases step_shape s s' h with ⟨ht, _⟩ |
    ⟨tt, serial, full, hb, ht, _⟩ |
    ⟨tid, g, t, hf, hid, hser, hact, _, _, ht, _⟩
  · intro serial'
    rw [ht]
    exact hex serial'
  · intro serial'
    rw [ht, List.filter_cons]
    by_cases hss : ((serial : String) == serial') = true
    · have : ((⟨s.nextId, tt, serial, full, TaskStatus.pending, none,
          false⟩ : Task).serial == serial' &&
          isActive ⟨s.nextId, tt, serial, full, TaskStatus.pending, none,
            false⟩) = true := by
        simp only [isActive]
        simp [hss]
      rw [if_pos this]
      have hnil : s.tasks.filter
          (fun t => t.serial == serial' && isActive t) = [] := by
        have := busy_filter_nil s serial hb
        simp only [beq_iff_eq] at hss
        rw [← hss]
        exact this
      rw [hnil]
      simp
    · rw [if_neg (by
        intro hcon
        exact hss (Bool.and_eq_true_iff.mp hcon).1)]
      exact hex serial'
  · intro serial'
    rw [ht]
    refine le_trans (filter_length_update_le tid g hser serial' s.tasks t
      hf hwf.2 hact) (hex serial')

theorem reachable_invariant (s : SysState) (h : Reachable s) :
    WellFormed s ∧ ExclusivePerDevice s := by
  unfold Reachable at h
  induction h with
  | refl =>
    refine ⟨⟨fun t ht => absurd ht (List.not_mem_nil t), List.Pairwise.nil⟩,
      ?_⟩
    intro serial
    simp [initState]
  | tail hab hbc ih =>
    exact ⟨wf_step _ _ hbc ih.1, excl_step _ _ hbc ih.1 ih.2⟩

end Backend

/-- C1: in every reachable state of the orchestrator, each device serial
has at most one task in status `pending` or `in_progress`; and when a task
for a serial already occupies one of those statuses, a further `submit`
for the same (available) serial returns `DeviceBusy` instead of creating a
task. -/
theorem per_device_exclusivity :
    (∀ s, Backend.Reachable s → Backend.ExclusivePerDevice s)
    ∧ (∀ (s : Backend.SysState) (tt : Backend.TaskType) (serial : String)
        (full : Bool), Backend.deviceBusy s serial = true →
        s.available.contains serial = true →
        Backend.submit s tt serial full = Except.error .deviceBusy) := by
  constructor
  · intro s hs
    exact (Backend.reachable_invariant s hs).2
  · intro s tt serial full hbusy hav
    unfold Backend.submit
    rw [if_neg (not_not_intro hav), if_pos (by simp [hbusy])]

/-- C1 witness: a concrete reachable state (device "a" seen, one backup
task submitted) satisfies the exclusivity invariant, and a second submit
for "a" while that task is pending returns `DeviceBusy`. -/
theorem per_device_exclusivity_witness :
    Backend.ExclusivePerDevice
      ⟨[⟨0, .backup, "a", true, .pending, none, false⟩], [], [],
        ["a"], ["a"], 1⟩
    ∧ Backend.submit
        ⟨[⟨0, .backup, "a", true, .pending, none, false⟩], [], [],
          ["a"], ["a"], 1⟩ .backup "a" false = Except.error .deviceBusy :=
  ⟨per_device_exclusivity.1 _
    (Relation.ReflTransGen.tail
      (Relation.ReflTransGen.tail Relation.ReflTransGen.refl
        (Backend.Step.doSeen Backend.initState "a"))
      (Backend.Step.doSubmit ⟨[], [], [], ["a"], ["a"], 0⟩ .backup "a" true
        _ 0 rfl)),
   per_device_exclusivity.2 _ _ _ _ (by decide) (by decide)⟩

namespace Backend

theorem find?_map_pred {α : Type} (f : α → α) (p : α → Bool)
    (hf : ∀ a, p (f a) = p a) (l : List α) :
    (l.map f).find? p = (l.find? p).map f := by
  induction l with
  | nil => rfl
  | cons a l ih =>
    by_cases hpa : p a = true
    · rw [List.map_cons, List.find?_cons_of_pos (l.map f)
        (by rw [hf]; exact hpa), List.find?_cons_of_pos l hpa]
      rfl
    · rw [List.map_cons, List.find?_cons_of_neg (l.map f)
        (by rw [hf]; exact hpa), List.find?_cons_of_neg l hpa, ih]

theorem pairwise_id_unique (l : List Task)
    (hpair : l.Pairwise (fun a b => a.id ≠ b.id)) :
    ∀ u ∈ l, ∀ v ∈ l, u.id = v.id → u = v := by
  induction l with
  | nil =>
    intro u hu
    cases hu
  | cons a l ih =>
    intro u hu v hv heq
    rcases List.mem_cons.mp hu with rfl | hu2
    · rcases List.mem_cons.mp hv with rfl | hv2
      · rfl
      · exact absurd heq ((List.pairwise_cons.mp hpair).1 v hv2)
    · rcases List.mem_cons.mp hv with rfl | hv2
      · exact absurd heq.symm ((List.pairwise_cons.mp hpair).1 u hu2)
      · exact ih (List.pairwise_cons.mp hpair).2 u hu2 v hv2 heq

theorem follows_terminal {a b : TaskStatus} (h : follows a b)
    (ht : a = .completed ∨ a = .failed) : b = a := by
  rcases h with rfl | ⟨h1, _⟩ | ⟨h1, _⟩
  · rfl
  · rcases ht with ht | ht <;> rw [ht] at h1 <;> cases h1
  · rcases ht with ht | ht <;> rw [ht] at h1 <;> cases h1

theorem step_task_evolution (s s' : SysState) (h : Step s s')
    (hwf : WellFormed s) (tid : Nat) (t : Task)
    (hf : findTask s tid = some t) :
    ∃ t', findTask s' tid = some t' ∧ follows t.status t'.status ∧
      (CancelSafe t → CancelSafe t') := by
  rcases step_shape s s' h with ⟨ht, _⟩ | ⟨tt, serial, full, _, ht, _⟩ |
    ⟨tid0, g, t0, hf0, hid, hser, _, hfol, hcs, ht, _⟩
  · refine ⟨t, ?_, Or.inl rfl, fun hc => hc⟩
    unfold findTask
    rw [ht]
    exact hf
  · refine ⟨t, ?_, Or.inl rfl, fun hc => hc⟩
    unfold findTask
    rw [ht]
    rw [List.find?_cons_of_neg s.tasks ?_]
    · exact hf
    · have hf' : s.tasks.find? (fun u => u.id == tid) = some t := hf
      have htid := List.find?_some hf'
      have hmem : t ∈ s.tasks := List.mem_of_find?_eq_some hf'
      have hlt := hwf.1 t hmem
      simp only [beq_iff_eq] at htid ⊢
      omega
  · have hfmap : findTask s' tid = (findTask s tid).map
        (fun u => if u.id == tid0 then g u else u) := by
      unfold findTask
      rw [ht]
      refine find?_map_pred _ _ (fun u => ?_) s.tasks
      by_cases hu : (u.id == tid0) = true
      · rw [if_pos hu]
        show ((g u).id == tid) = (u.id == tid)
        rw [hid u]
      · rw [if_neg hu]
    rw [hf] at hfmap
    by_cases hut : (t.id == tid0) = true
    · have hf' : s.tasks.find? (fun u => u.id == tid) = some t := hf
      have hf0' : s.tasks.find? (fun u => u.id == tid0) = some t0 := hf0
      have ht0id := List.find?_some hf0'
      have hmem : t ∈ s.tasks := List.mem_of_find?_eq_some hf'
      have hmem0 : t0 ∈ s.tasks := List.mem_of_find?_eq_some hf0'
      have hte : t = t0 := by
        refine pairwise_id_unique s.tasks hwf.2 t hmem t0 hmem0 ?_
        simp only [beq_iff_eq] at hut ht0id
        rw [hut, ht0id]
      subst hte
      refine ⟨g t, ?_, hfol, hcs⟩
      rw [hfmap]
      show some (if (t.id == tid0) = true then g t else t) = some (g t)
      rw [if_pos hut]
    · refine ⟨t, ?_, Or.inl rfl, fun hc => hc⟩
      rw [hfmap]
      show some (if (t.id == tid0) = true then g t else t) = some t
      rw [if_neg hut]

theorem wf_steps (s s' : SysState) (h : Relation.ReflTransGen Step s s')
    (hwf : WellFormed s) : WellFormed s' := by
  induction h with
  | refl => exact hwf
  | tail hab hbc ih => exact wf_step _ _ hbc ih

theorem steps_task_evolution (s s' : SysState)
    (h : Relation.ReflTransGen Step s s') (hwf : WellFormed s) (tid : Nat)
    (t : Task) (hf : findTask s tid = some t) :
    ∃ t', findTask s' tid = some t' ∧
      ((t.status = .completed ∨ t.status = .failed) →
        t'.status = t.status) ∧
      (CancelSafe t → CancelSafe t') := by
  induction h with
  | refl => exact ⟨t, hf, fun _ => rfl, fun hc => hc⟩
  | tail hab hbc ih =>
    rcases ih with ⟨tb, hfb, hterm, hcsb⟩
    have hwfb := wf_steps _ _ hab hwf
    rcases step_task_evolution _ _ hbc hwfb tid tb hfb with
      ⟨tc, hfc, hfolc, hcsc⟩
    refine ⟨tc, hfc, ?_, fun hc => hcsc (hcsb hc)⟩
    intro hterm0
    have hb := hterm hterm0
    have hcb : tc.status = tb.status := by
      refine follows_terminal hfolc ?_
      rw [hb]
      exact hterm0
    rw [hcb, hb]

end Backend

/-- C6: across any single transition, every task's status change conforms
to the state machine `pending -> in_progress -> {completed | failed}` (a
status may also stay put); and across any sequence of transitions, a task
that has reached `completed` or `failed` never changes status again. -/
theorem task_state_machine :
    (∀ s s' : Backend.SysState, Backend.Step s s' → Backend.WellFormed s →
      ∀ (tid : Nat) (t t' : Backend.Task), Backend.findTask s tid = some t →
        Backend.findTask s' tid = some t' →
        Backend.follows t.status t'.status)
    ∧ (∀ s s' : Backend.SysState,
        Relation.ReflTransGen Backend.Step s s' → Backend.WellFormed s →
        ∀ (tid : Nat) (t t' : Backend.Task),
        Backend.findTask s tid = some t →
        (t.status = .completed ∨ t.status = .failed) →
        Backend.findTask s' tid = some t' → t'.status = t.status) := by
  constructor
  · intro s s' h hwf tid t t' hf hf'
    rcases Backend.step_task_evolution s s' h hwf tid t hf with
      ⟨t'', hf'', hfol, _⟩
    rw [hf'] at hf''
    cases hf''
    exact hfol
  · intro s s' h hwf tid t t' hf hterm hf'
    rcases Backend.steps_task_evolution s s' h hwf tid t hf with
      ⟨t'', hf'', hterm', _⟩
    rw [hf'] at hf''
    cases hf''
    exact hterm' hterm

/-- C6 witness: starting a concrete pending task moves it to in_progress
(conforming to the machine), and a concrete completed task keeps its
status across a cancel transition. -/
theorem task_state_machine_witness :
    Backend.follows
      (⟨0, .backup, "a", true, .pending, none, false⟩ :
        Backend.Task).status
      (⟨0, .backup, "a", true, .in_progress, none, false⟩ :
        Backend.Task).status
    ∧ (⟨1, .backup, "b", true, .completed, none, false⟩ :
        Backend.Task).status =
      (⟨1, .backup, "b", true, .completed, none, false⟩ :
        Backend.Task).status :=
  ⟨task_state_machine.1
      ⟨[⟨0, .backup, "a", true, .pending, none, false⟩], [], [],
        ["a"], ["a"], 1⟩ _
      (Backend.Step.doStart
        ⟨[⟨0, .backup, "a", true, .pending, none, false⟩], [], [],
          ["a"], ["a"], 1⟩ 0
        ⟨0, .backup, "a", true, .pending, none, false⟩ rfl rfl)
      (by constructor
          · intro t ht
            rcases List.mem_cons.mp ht with rfl | h2
            · exact Nat.lt_succ_self 0
            · cases h2
          · exact List.pairwise_singleton _ _)
      0 _ _ rfl rfl,
   task_state_machine.2
      ⟨[⟨1, .backup, "b", true, .completed, none, false⟩], [], [],
        ["b"], ["b"], 2⟩ _
      (Relation.ReflTransGen.tail Relation.ReflTransGen.refl
        (Backend.Step.doCancelReq
          ⟨[⟨1, .backup, "b", true, .completed, none, false⟩], [], [],
            ["b"], ["b"], 2⟩ 1))
      (by constructor
          · intro t ht
            rcases List.mem_cons.mp ht with rfl | h2
            · exact Nat.lt_succ_self 1
            · cases h2
          · exact List.pairwise_singleton _ _)
      1 _ _ rfl (Or.inl rfl) rfl⟩

namespace Backend

theorem findTask_updateTask (s : SysState) (tid : Nat) (g : Task → Task)
    (hid : ∀ u, (g u).id = u.id) (t : Task) (hf : findTask s tid = some t) :
    findTask (updateTask s tid g) tid = some (g t) := by
  have hfmap : findTask (updateTask s tid g) tid = (findTask s tid).map
      (fun u => if u.id == tid then g u else u) := by
    unfold findTask updateTask
    refine find?_map_pred _ _ (fun u => ?_) s.tasks
    by_cases hu : (u.id == tid) = true
    · rw [if_pos hu]
      show ((g u).id == tid) = (u.id == tid)
      rw [hid u]
    · rw [if_neg hu]
  rw [hfmap, hf]
  have hf' : s.tasks.find? (fun u => u.id == tid) = some t := hf
  have htid := List.find?_some hf'
  show some (if (t.id == tid) = true then g t else t) = some (g t)
  rw [if_pos htid]

end Backend

/-- C5: `cancel` is a no-op reporting success when the task is already
`completed` or `failed`; for a task in `in_progress` whose cancellation has
been requested, the executor's acknowledgement step is available and puts
the task into terminal status `failed` with error "cancelled", and across
any sequence of transitions such a task is never `completed` and can only
terminate as `failed` with error "cancelled" (within the grace period the
executor acknowledges the observed signal instead of reporting its own
outcome). -/
theorem cancel_spec :
    (∀ (s : Backend.SysState) (tid : Nat) (t : Backend.Task),
      Backend.findTask s tid = some t →
      (t.status = .completed ∨ t.status = .failed) →
      Backend.cancel s tid = (s, .success))
    ∧ (∀ (s : Backend.SysState) (tid : Nat) (t : Backend.Task),
        Backend.findTask s tid = some t →
        t.status = Backend.TaskStatus.in_progress →
        t.cancelRequested = true →
        (Backend.Step s (Backend.updateTask s tid
          (fun u => { u with status := .failed, error := some "cancelled" }))
        ∧ ∃ ta, Backend.findTask (Backend.updateTask s tid
            (fun u => { u with status := .failed, error := some "cancelled" }))
            tid = some ta ∧
          ta.status = .failed ∧ ta.error = some "cancelled")
        ∧ (Backend.WellFormed s → ∀ s',
          Relation.ReflTransGen Backend.Step s s' →
          ∃ t', Backend.findTask s' tid = some t' ∧
            t'.status ≠ Backend.TaskStatus.completed ∧
            (t'.status = .failed → t'.error = some "cancelled"))) := by
  constructor
  · intro s tid t hf hterm
    unfold Backend.cancel
    rw [hf]
    show (if (t.status == Backend.TaskStatus.completed ||
        t.status == Backend.TaskStatus.failed) = true
      then (s, Backend.CancelOutcome.success)
      else (Backend.updateTask s tid
        (fun u => { u with cancelRequested := true }),
        Backend.CancelOutcome.success)) = (s, Backend.CancelOutcome.success)
    rw [if_pos (by rcases hterm with h | h <;> simp [h])]
  · intro s tid t hf hp hc
    refine ⟨⟨Backend.Step.doAckCancel s tid t hf hp hc, ?_⟩, ?_⟩
    · exact ⟨_, Backend.findTask_updateTask s tid
        (fun u => { u with status := .failed, error := some "cancelled" })
        (fun u => rfl) t hf, rfl, rfl⟩
    · intro hwf s' hsteps
      rcases Backend.steps_task_evolution s s' hsteps hwf tid t hf with
        ⟨t', hf', _, hcs'⟩
      have hcst' := hcs' (Or.inl ⟨hp, hc⟩)
      refine ⟨t', hf', ?_, ?_⟩
      · rcases hcst' with ⟨h1, _⟩ | ⟨h1, _⟩ <;> rw [h1] <;>
          intro hcon <;> cases hcon
      · intro hfail
        rcases hcst' with ⟨h1, _⟩ | ⟨_, h2⟩
        · rw [hfail] at h1
          cases h1
        · exact h2

/-- C5 witness: cancelling a concrete completed task is a no-op with
success; for a concrete in_progress task with a pending cancellation
request, the acknowledgement step makes it failed with error "cancelled",
and along the empty sequence of further transitions it is not completed. -/
theorem cancel_spec_witness :
    Backend.cancel
      ⟨[⟨0, .backup, "a", true, .completed, none, false⟩], [], [],
        ["a"], ["a"], 1⟩ 0 =
      (⟨[⟨0, .backup, "a", true, .completed, none, false⟩], [], [],
        ["a"], ["a"], 1⟩, .success)
    ∧ (∃ ta, Backend.findTask (Backend.updateTask
          ⟨[⟨0, .backup, "a", true, .in_progress, none, true⟩], [], [],
            ["a"], ["a"], 1⟩ 0
          (fun u => { u with status := .failed, error := some "cancelled" }))
          0 = some ta ∧ ta.status = .failed ∧ ta.error = some "cancelled")
    ∧ ∃ t', Backend.findTask
          ⟨[⟨0, .backup, "a", true, .in_progress, none, true⟩], [], [],
            ["a"], ["a"], 1⟩ 0 = some t' ∧
        t'.status ≠ Backend.TaskStatus.completed ∧
        (t'.status = .failed → t'.error = some "cancelled") :=
  ⟨cancel_spec.1 _ 0 ⟨0, .backup, "a", true, .completed, none, false⟩ rfl
      (Or.inl rfl),
   (cancel_spec.2
      ⟨[⟨0, .backup, "a", true, .in_progress, none, true⟩], [], [],
        ["a"], ["a"], 1⟩ 0
      ⟨0, .backup, "a", true, .in_progress, none, true⟩ rfl rfl rfl).1.2,
   (cancel_spec.2
      ⟨[⟨0, .backup, "a", true, .in_progress, none, true⟩], [], [],
        ["a"], ["a"], 1⟩ 0
      ⟨0, .backup, "a", true, .in_progress, none, true⟩ rfl rfl rfl).2
     (by
       constructor
       · intro t ht
         rcases List.mem_cons.mp ht with rfl | h2
         · exact Nat.lt_succ_self 0
         · cases h2
       · exact List.pairwise_singleton _ _)
     _ Relation.ReflTransGen.refl⟩
